import Mathlib

set_option linter.unusedVariables false

/-
Verification of the WTK (Woof Toolkit) OS layer: the fixed-capacity task pool
and scheduler (src/OS/Task.cpp, src/OS/TaskScheduler.cpp/.hpp), the
synchronization primitives (src/OS/Semaphore.cpp, src/OS/Mutex.cpp in
TaskControlBlock.hpp's translation unit), the thread-priority value type
(src/OS/ThreadPriority.hpp, both RTOS backends) and the coalescing event
channel (Event.hpp).

The C++ code is shallowly embedded: pointers are modelled as natural numbers
with 0 standing for nullptr, the 32-bit unique-identifier counter is a Nat
reduced modulo 2^32 exactly where the C++ uint32_t overflows, the task pool is
a list of task control blocks, and the fatal crash primitive Crash::here()
is modelled as the Option.none outcome of the operation that reaches it.
Mutex-protected critical sections execute atomically in the C++ code, so each
operation is one pure state transition here.  Kernel calls whose success
depends on the environment (mutex create/get/put) take explicit Boolean
oracles.  Action invocation is recorded as data (which function pointer was
called, with which binding argument) rather than executed.
-/

set_option maxHeartbeats 1000000

namespace WTK

/-- Thread context enumeration from RTOS.hpp (`none`, `application`, `frame`). -/
inductive ThreadContext
  | none
  | application
  | frame
  deriving DecidableEq

/-- The task control block from TaskControlBlock.hpp.  `binding` and `action`
are the two pointers (`void*` and the `OptionalBindingAction` union, one
pointer wide) modelled as naturals, 0 meaning null. -/
structure TaskControlBlock where
  id : Nat
  binding : Nat
  action : Nat
  context : ThreadContext
  delayTicks : Nat
  resetTicks : Nat
  deriving DecidableEq

/-- The all-zero control block produced by `TaskControlBlock::clear` and by the
default constructor. -/
def TaskControlBlock.cleared : TaskControlBlock :=
  ⟨0, 0, 0, ThreadContext.none, 0, 0⟩

/-- A record of one action invocation performed by `Task::process`: the binding
form `tcb.action.binding(tcb.binding)` or the plain form `tcb.action.plain()`.
The first field is the function pointer that was jumped through. -/
inductive Invocation
  | plain (fn : Nat)
  | binding (fn : Nat) (arg : Nat)
  deriving DecidableEq

/-- Modulus of the 32-bit `TaskId` unique-identifier counter `Task::m_uid`. -/
def uidModulus : Nat := 2 ^ 32

/-- `Task::acquireUnsafe`: if the block is empty assign the pre-incremented
global identifier counter (a `uint32_t`, hence the modulus).  Returns whether
the block was empty together with the new counter and block. -/
def Task.acquireUnsafe (uid : Nat) (tcb : TaskControlBlock) :
    Bool × Nat × TaskControlBlock :=
  if tcb.id = 0 then
    (true, (uid + 1) % uidModulus, { tcb with id := (uid + 1) % uidModulus })
  else
    (false, uid, tcb)

/-- `Task::scheduleUnsafe`: fill the control block fields and return the stored
identifier. -/
def Task.scheduleUnsafe (arg action : Nat) (context : ThreadContext)
    (time reset : Nat) (tcb : TaskControlBlock) : Nat × TaskControlBlock :=
  (tcb.id,
   { tcb with binding := arg, action := action, context := context,
              delayTicks := time, resetTicks := reset })

/-- Result of `Task::process`: the new control block, the two counters passed
by pointer, and the action invocation performed (none when the task was
skipped). -/
structure ProcessResult where
  tcb : TaskControlBlock
  immediate : Nat
  delayed : Nat
  invoked : Option Invocation
  deriving DecidableEq

/-- `Task::process` from Task.cpp.  No-op unless the identifier is non-zero,
the remaining delay is zero and the stored context equals the argument.
Otherwise the action is invoked (binding form when the binding pointer is set,
plain form otherwise; there is no null check on the action pointer), then the
task is re-armed when `resetTicks` is non-zero or cleared when it is zero.
The counter decrements carry the same zero guards as the C++
(`if (immediateCount && *immediateCount) --*immediateCount`); the counter
pointers are always supplied by the scheduler, so only the value guard
remains. -/
def Task.process (tcb : TaskControlBlock) (context : ThreadContext)
    (immediateCount delayedCount : Nat) : ProcessResult :=
  if tcb.id = 0 ∨ tcb.delayTicks ≠ 0 ∨ tcb.context ≠ context then
    ⟨tcb, immediateCount, delayedCount, Option.none⟩
  else
    let inv := if tcb.binding ≠ 0 then Invocation.binding tcb.action tcb.binding
               else Invocation.plain tcb.action
    if tcb.resetTicks ≠ 0 then
      ⟨{ tcb with delayTicks := tcb.resetTicks },
       if immediateCount ≠ 0 then immediateCount - 1 else immediateCount,
       delayedCount + 1,
       some inv⟩
    else
      ⟨TaskControlBlock.cleared,
       if immediateCount ≠ 0 then immediateCount - 1 else immediateCount,
       delayedCount,
       some inv⟩

/-- Result of `Task::delayTick`. -/
structure TickResult where
  tcb : TaskControlBlock
  immediate : Nat
  delayed : Nat
  zeroed : Bool
  deriving DecidableEq

/-- `Task::delayTick` from Task.cpp: decrement the delay of an occupied delayed
task; when it reaches zero move one count from delayed to immediate and report
true. -/
def Task.delayTick (tcb : TaskControlBlock) (immediateCount delayedCount : Nat) :
    TickResult :=
  if tcb.id ≠ 0 ∧ tcb.delayTicks ≠ 0 then
    if tcb.delayTicks - 1 = 0 then
      ⟨{ tcb with delayTicks := tcb.delayTicks - 1 },
       immediateCount + 1,
       if delayedCount ≠ 0 then delayedCount - 1 else delayedCount,
       true⟩
    else
      ⟨{ tcb with delayTicks := tcb.delayTicks - 1 },
       immediateCount, delayedCount, false⟩
  else
    ⟨tcb, immediateCount, delayedCount, false⟩

/-- Result of `Task::cancel`: the new control block, the caller's identifier
handle (passed by reference and zeroed on a match), the counters, and whether
the identifier matched. -/
structure CancelResult where
  tcb : TaskControlBlock
  id : Nat
  immediate : Nat
  delayed : Nat
  matched : Bool
  deriving DecidableEq

/-- `Task::cancel` from Task.cpp.  Note that the match test is
`m_tcb.id == id` with no non-zero check, exactly as in the source: a zero
identifier handle matches an empty block. -/
def Task.cancel (tcb : TaskControlBlock) (id : Nat)
    (immediateCount delayedCount : Nat) : CancelResult :=
  if tcb.id = id then
    { tcb := TaskControlBlock.cleared,
      id := 0,
      immediate := if tcb.delayTicks ≠ 0 then immediateCount
                   else if immediateCount ≠ 0 then immediateCount - 1
                   else immediateCount,
      delayed := if tcb.delayTicks ≠ 0 then
                   if delayedCount ≠ 0 then delayedCount - 1 else delayedCount
                 else delayedCount,
      matched := true }
  else
    { tcb := tcb, id := id, immediate := immediateCount,
      delayed := delayedCount, matched := false }

/-- Pool capacity `WTK_OS_TASKS` (default 64, per the build configuration). -/
def WTK_OS_TASKS : Nat := 64

/-- The scheduler state: the fixed task pool, the two advisory counters and
the shared unique-identifier counter `Task::m_uid`.  The two semaphores only
wake the dispatch loops and carry no data, so they are not part of the
functional state. -/
structure SchedulerState where
  tasks : List TaskControlBlock
  immediate : Nat
  delayed : Nat
  uid : Nat
  deriving DecidableEq

/-- A freshly constructed `TaskScheduler`: an all-empty pool, both counters
zero, identifier counter zero. -/
def freshScheduler : SchedulerState :=
  ⟨List.replicate WTK_OS_TASKS TaskControlBlock.cleared, 0, 0, 0⟩

/-- Argument bundle of one `TaskScheduler::schedule` call. -/
structure SchedCall where
  arg : Nat
  action : Nat
  context : ThreadContext
  time : Nat
  reset : Nat
  deriving DecidableEq

/-- The first-fit scan of `TaskScheduler::schedule`: find the first task whose
`acquireUnsafe` succeeds, fill it, and return the new identifier with the
updated pool.  `Option.none` is the `Crash::here()` outcome reached when no
task can be acquired. -/
def TaskScheduler.scheduleGo (uid arg action : Nat) (context : ThreadContext)
    (time reset : Nat) : List TaskControlBlock → Option (Nat × List TaskControlBlock)
  | [] => Option.none
  | t :: ts =>
    match Task.acquireUnsafe uid t with
    | (true, _, t2) =>
      let r := Task.scheduleUnsafe arg action context time reset t2
      some (r.1, r.2 :: ts)
    | (false, _, _) =>
      match TaskScheduler.scheduleGo uid arg action context time reset ts with
      | some (id, ts2) => some (id, t :: ts2)
      | Option.none => Option.none

/-- `TaskScheduler::schedule` from TaskScheduler.cpp: first-fit acquire, then
increment the delayed counter when `time` is non-zero and the immediate counter
otherwise.  `Option.none` models the fatal `Crash::here()` on pool depletion.
The semaphore releases that follow carry no functional state. -/
def TaskScheduler.schedule (s : SchedulerState) (c : SchedCall) :
    Option (Nat × SchedulerState) :=
  match TaskScheduler.scheduleGo s.uid c.arg c.action c.context c.time c.reset s.tasks with
  | some (id, ts) =>
    some (id,
      { tasks := ts,
        immediate := if c.time ≠ 0 then s.immediate else s.immediate + 1,
        delayed := if c.time ≠ 0 then s.delayed + 1 else s.delayed,
        uid := id })
  | Option.none => Option.none

/-- Result of scanning the whole pool with `Task::process`. -/
structure PoolScanResult where
  tasks : List TaskControlBlock
  immediate : Nat
  delayed : Nat
  invocations : List Invocation
  deriving DecidableEq

/-- `TaskScheduler::processImmediate` restricted to the pool list: call
`Task::process` on every task in array order, threading the two counters, and
collect the performed invocations in order. -/
def TaskScheduler.processList (context : ThreadContext) :
    List TaskControlBlock → Nat → Nat → PoolScanResult
  | [], imm, del => ⟨[], imm, del, []⟩
  | t :: ts, imm, del =>
    let r := Task.process t context imm del
    let rest := TaskScheduler.processList context ts r.immediate r.delayed
    ⟨r.tcb :: rest.tasks, rest.immediate, rest.delayed,
     r.invoked.toList ++ rest.invocations⟩

/-- `TaskScheduler::processImmediate` on the scheduler state. -/
def TaskScheduler.processImmediate (s : SchedulerState) (context : ThreadContext) :
    SchedulerState × List Invocation :=
  let r := TaskScheduler.processList context s.tasks s.immediate s.delayed
  ({ s with tasks := r.tasks, immediate := r.immediate, delayed := r.delayed },
   r.invocations)

/-- Result of scanning the whole pool with `Task::delayTick`. -/
structure TickScanResult where
  tasks : List TaskControlBlock
  immediate : Nat
  delayed : Nat
  deriving DecidableEq

/-- `TaskScheduler::processDelayed` restricted to the pool list: call
`Task::delayTick` on every task in array order (the dispatch-semaphore release
on promotion carries no functional state). -/
def TaskScheduler.delayTickList :
    List TaskControlBlock → Nat → Nat → TickScanResult
  | [], imm, del => ⟨[], imm, del⟩
  | t :: ts, imm, del =>
    let r := Task.delayTick t imm del
    let rest := TaskScheduler.delayTickList ts r.immediate r.delayed
    ⟨r.tcb :: rest.tasks, rest.immediate, rest.delayed⟩

/-- `TaskScheduler::processDelayed` on the scheduler state. -/
def TaskScheduler.processDelayed (s : SchedulerState) : SchedulerState :=
  let r := TaskScheduler.delayTickList s.tasks s.immediate s.delayed
  { s with tasks := r.tasks, immediate := r.immediate, delayed := r.delayed }

/-- Result of the pool scan in `TaskScheduler::cancel`. -/
structure CancelScanResult where
  tasks : List TaskControlBlock
  id : Nat
  immediate : Nat
  delayed : Nat
  deriving DecidableEq

/-- `TaskScheduler::cancel` restricted to the pool list: call `Task::cancel`
on each task until one reports a match, then stop. -/
def TaskScheduler.cancelGo (id imm del : Nat) :
    List TaskControlBlock → CancelScanResult
  | [] => ⟨[], id, imm, del⟩
  | t :: ts =>
    let r := Task.cancel t id imm del
    if r.matched then ⟨r.tcb :: ts, r.id, r.immediate, r.delayed⟩
    else
      let rest := TaskScheduler.cancelGo id imm del ts
      ⟨r.tcb :: rest.tasks, rest.id, rest.immediate, rest.delayed⟩

/-- `TaskScheduler::cancel` on the scheduler state; returns the zeroed-or-kept
identifier handle together with the new state. -/
def TaskScheduler.cancel (s : SchedulerState) (id : Nat) : Nat × SchedulerState :=
  let r := TaskScheduler.cancelGo id s.immediate s.delayed s.tasks
  (r.id, { s with tasks := r.tasks, immediate := r.immediate, delayed := r.delayed })

/-- One user-visible scheduler operation. -/
inductive SchedOp
  | schedule (c : SchedCall)
  | processImm (context : ThreadContext)
  | delayTickAll
  | cancel (id : Nat)
  deriving DecidableEq

/-- One step of the scheduler; `Option.none` is the fatal crash on pool
depletion. -/
def SchedulerState.step (s : SchedulerState) : SchedOp → Option SchedulerState
  | SchedOp.schedule c => (TaskScheduler.schedule s c).map (fun p => p.2)
  | SchedOp.processImm context => some (TaskScheduler.processImmediate s context).1
  | SchedOp.delayTickAll => some (TaskScheduler.processDelayed s)
  | SchedOp.cancel id => some (TaskScheduler.cancel s id).2

/-- Run a sequence of scheduler operations. -/
def SchedulerState.run (s : SchedulerState) : List SchedOp → Option SchedulerState
  | [] => some s
  | op :: ops =>
    match s.step op with
    | some s2 => SchedulerState.run s2 ops
    | Option.none => Option.none

/-- Number of occupied pool slots whose remaining delay is zero (the tasks the
immediate counter is supposed to count). -/
def immCount : List TaskControlBlock → Nat
  | [] => 0
  | t :: ts => (if t.id ≠ 0 ∧ t.delayTicks = 0 then 1 else 0) + immCount ts

/-- Number of occupied pool slots whose remaining delay is positive (the tasks
the delayed counter is supposed to count). -/
def delCount : List TaskControlBlock → Nat
  | [] => 0
  | t :: ts => (if t.id ≠ 0 ∧ t.delayTicks ≠ 0 then 1 else 0) + delCount ts

/-- Number of occupied pool slots (non-zero identifier). -/
def occCount : List TaskControlBlock → Nat
  | [] => 0
  | t :: ts => (if t.id ≠ 0 then 1 else 0) + occCount ts

/-- The counter-consistency invariant of the scheduler. -/
def SchedulerState.consistent (s : SchedulerState) : Prop :=
  s.immediate = immCount s.tasks ∧ s.delayed = delCount s.tasks

/-- Outcome of a mutex operation: a Boolean return value, or the fatal
`Crash::here()` reached when lazy creation of the native control block
fails. -/
inductive MutexResult
  | ok (value : Bool)
  | crash
  deriving DecidableEq

/-- `Mutex::acquire` from Mutex.cpp (both backends have the same structure):
refuse interrupt context with `false` before anything else, then lazily create
the native mutex (fatal on creation failure), then forward the kernel get.
`created` is the `m_isCreated` / `m_handle` state, `createOk` and `grabOk` are
oracles for the two kernel calls.  Returns the outcome and the new `created`
state. -/
def Mutex.acquire (isr created createOk grabOk : Bool) : MutexResult × Bool :=
  if isr then (MutexResult.ok false, created)
  else if created then (MutexResult.ok grabOk, created)
  else if createOk then (MutexResult.ok grabOk, true)
  else (MutexResult.crash, created)

/-- `Mutex::release` from Mutex.cpp: `if (!m_isCreated || isISRContext())
return false;` then forward the kernel put (oracle `putOk`). -/
def Mutex.release (isr created putOk : Bool) : MutexResult × Bool :=
  if !created || isr then (MutexResult.ok false, created)
  else (MutexResult.ok putOk, created)

/-- Outcome of `Semaphore::wait`: the fatal crash, a successful acquisition,
or a block that ends in a timeout failure (no release arrived). -/
inductive WaitOutcome
  | crash
  | acquired
  | blocked
  deriving DecidableEq

/-- Azure RTOS backend semaphore state: the lazily-created flag, the
`m_isTaken` flag, and the native counting-semaphore count (created at 0). -/
structure SemStateA where
  isCreated : Bool
  isTaken : Bool
  count : Nat
  deriving DecidableEq

/-- A `Semaphore` as just constructed (both flags false, count 0). -/
def SemStateA.fresh : SemStateA := ⟨false, false, 0⟩

/-- `Semaphore::wait`, Azure RTOS backend, from Semaphore.cpp:
`if (m_isTaken || CurrentThread::isISRContext()) Crash::here();` — note the
wait from interrupt context is FATAL, it does not return false.  Otherwise
lazily create, set `m_isTaken` around the kernel get, and return.  The kernel
get consumes a count when one is available and otherwise blocks (modelled as
the `blocked` outcome of a wait no release ever completes). -/
def Semaphore.waitA (isr : Bool) (s : SemStateA) : WaitOutcome × SemStateA :=
  if s.isTaken || isr then (WaitOutcome.crash, s)
  else
    let s1 : SemStateA := { s with isCreated := true }
    if s1.count ≠ 0 then
      (WaitOutcome.acquired, { s1 with count := s1.count - 1, isTaken := false })
    else
      (WaitOutcome.blocked, { s1 with isTaken := false })

/-- `Semaphore::release`, Azure RTOS backend, from Semaphore.cpp:
`if (!m_isCreated || !m_isTaken) return false;` then `tx_semaphore_put`
(which always succeeds on a counting semaphore). -/
def Semaphore.releaseA (s : SemStateA) : Bool × SemStateA :=
  if !s.isCreated || !s.isTaken then (false, s)
  else (true, { s with count := s.count + 1 })

/-- FreeRTOS backend semaphore state: created handle flag, `m_isTaken`, and
the binary-semaphore count (0 or 1, created at 0). -/
structure SemStateF where
  created : Bool
  isTaken : Bool
  count : Nat
  deriving DecidableEq

/-- A FreeRTOS `Semaphore` as just constructed. -/
def SemStateF.fresh : SemStateF := ⟨false, false, 0⟩

/-- `Semaphore::wait`, FreeRTOS backend, from Semaphore.cpp: the same fatal
guard `if (m_isTaken || CurrentThread::isISRContext()) Crash::here();`, then
lazy creation and the kernel take. -/
def Semaphore.waitF (isr : Bool) (s : SemStateF) : WaitOutcome × SemStateF :=
  if s.isTaken || isr then (WaitOutcome.crash, s)
  else
    let s1 : SemStateF := { s with created := true }
    if s1.count ≠ 0 then
      (WaitOutcome.acquired, { s1 with count := s1.count - 1, isTaken := false })
    else
      (WaitOutcome.blocked, { s1 with isTaken := false })

/-- `Semaphore::release`, FreeRTOS backend, from Semaphore.cpp:
`if (!m_isTaken) return false;` then the kernel give, from the matching
context; a binary give succeeds exactly when the count is 0. -/
def Semaphore.releaseF (isr : Bool) (s : SemStateF) : Bool × SemStateF :=
  if !s.isTaken then (false, s)
  else if s.count = 0 then (true, { s with count := 1 })
  else (false, s)

/-- Azure RTOS preset raw values from ThreadPriority.hpp, parameterized by
`TX_MAX_PRIORITIES`; the highest (realtime) priority is raw 0. -/
def azureIdle (txMax : Int) : Int := txMax - 1

/-- Azure RTOS realtime preset: raw 0. -/
def azureRealtime : Int := 0

/-- Azure backend `operator<`: lower priority means a larger raw value, so the
source compares with the flipped raw comparison `m_value > other.m_value`. -/
def azureLt (a b : Int) : Bool := decide (a > b)

/-- Azure backend `operator>` (`m_value < other.m_value`). -/
def azureGt (a b : Int) : Bool := decide (a < b)

/-- Azure backend `operator!=`. -/
def azureNeq (a b : Int) : Bool := decide (a ≠ b)

/-- Azure backend pre/post increment body: `if (*this > min()) --m_value;`
with `min() = idle`; the guard compares against the WRONG bound (the source
swapped the guards of `++` and `--`), faithfully translated. -/
def azureInc (txMax a : Int) : Int :=
  if a < txMax - 1 then a - 1 else a

/-- Azure backend pre/post decrement body: `if (*this < max()) ++m_value;`
with `max() = realtime` (raw 0), faithfully translated. -/
def azureDec (txMax a : Int) : Int :=
  if a > 0 then a + 1 else a

/-- `ThreadPriority::cap`, Azure backend reading: clamp into the raw range
`[realtime = 0, idle = txMax - 1]` using the backend's flipped comparisons. -/
def azureCap (txMax a : Int) : Int :=
  if a > txMax - 1 then txMax - 1 else if a < 0 then 0 else a

/-- Azure backend `operator+` : `cap(m_value - value)` (adding priority moves
toward raw 0). -/
def azureAdd (txMax a v : Int) : Int := azureCap txMax (a - v)

/-- Azure backend `operator-` : `cap(m_value + value)`. -/
def azureSub (txMax a v : Int) : Int := azureCap txMax (a + v)

/-- True when an Azure raw priority value lies in the legal `[realtime, idle]`
raw range. -/
def azureInRange (txMax a : Int) : Prop := 0 ≤ a ∧ a ≤ txMax - 1

/-- FreeRTOS preset raw values from ThreadPriority.hpp: `idle = 1`. -/
def freeIdle : Int := 1

/-- FreeRTOS `realtime = 48`. -/
def freeRealtime : Int := 48

/-- FreeRTOS backend `operator<` (raw order matches conceptual order). -/
def freeLt (a b : Int) : Bool := decide (a < b)

/-- FreeRTOS backend `operator>`. -/
def freeGt (a b : Int) : Bool := decide (a > b)

/-- FreeRTOS backend `operator!=`, translated faithfully from the source line
`inline bool operator !=(const ThreadPriority& other) const
\x7b return m_value == other.m_value; \x7d` — it returns EQUALITY. -/
def freeNeq (a b : Int) : Bool := decide (a = b)

/-- FreeRTOS backend pre/post increment body:
`if (*this < max()) ++m_value;` with `max() = realtime = 48`. -/
def freeInc (a : Int) : Int := if a < 48 then a + 1 else a

/-- FreeRTOS backend pre/post decrement body:
`if (*this > min()) --m_value;` with `min() = idle = 1`. -/
def freeDec (a : Int) : Int := if a > 1 then a - 1 else a

/-- `ThreadPriority::cap`, FreeRTOS backend reading: clamp into `[1, 48]`. -/
def freeCap (a : Int) : Int := if a < 1 then 1 else if a > 48 then 48 else a

/-- State of the coalescing event channel `OS::Event` from Event.hpp:
the stored argument, whether a subscriber (instance and handler pair) is set,
the atomic `m_pending` flag, and the number of dispatches scheduled through
`AppThread::sync` that have not yet run on the target context. -/
structure EventState (α : Type) where
  argument : α
  subscribed : Bool
  pending : Bool
  queued : Nat

/-- `Event::call` from Event.hpp: store the argument (always, overwriting any
unconsumed one), test-and-set the pending flag and drop the call when it was
already set; otherwise run the handler inline when already on the target
context, or schedule a dispatch through `AppThread::sync`.  Returns the new
state and the list of handler invocations (the argument values the handler
observed) performed inside the call itself. -/
def Event.call {α : Type} (onTargetContext : Bool) (arg : α) (s : EventState α) :
    EventState α × List α :=
  let s1 : EventState α := { s with argument := arg }
  if s1.pending then (s1, [])
  else
    let s2 : EventState α := { s1 with pending := true }
    if onTargetContext then
      ({ s2 with pending := false },
       if s2.subscribed then [s2.argument] else [])
    else
      ({ s2 with queued := s2.queued + 1 }, [])

/-- The body of the lambda `Event::call` schedules through `AppThread::sync`,
run later on the target context: invoke the handler with the CURRENT stored
argument (when still subscribed) and clear the pending flag.  A no-op when no
dispatch is queued. -/
def Event.deliver {α : Type} (s : EventState α) : EventState α × List α :=
  if s.queued = 0 then (s, [])
  else
    ({ s with queued := s.queued - 1, pending := false },
     if s.subscribed then [s.argument] else [])

/-- One step of the event channel: an external `call` (tagged with whether the
caller is already on the target context) or the target context running one
queued dispatch. -/
inductive EventOp (α : Type)
  | call (onTargetContext : Bool) (arg : α)
  | deliver

/-- Run a sequence of event-channel steps, collecting every handler
invocation in order. -/
def Event.run {α : Type} (s : EventState α) : List (EventOp α) → EventState α × List α
  | [] => (s, [])
  | op :: ops =>
    let r := match op with
      | EventOp.call t a => Event.call t a s
      | EventOp.deliver => Event.deliver s
    let rest := Event.run r.1 ops
    (rest.1, r.2 ++ rest.2)

/-- Run a prefix of an infinite stream of `schedule` calls on a fresh
scheduler, collecting the returned identifiers in order; `Option.none` once
any call reaches the fatal pool-depletion crash. -/
def runSchedules (f : Nat → SchedCall) : Nat → Option (List Nat × SchedulerState)
  | 0 => some ([], freshScheduler)
  | n + 1 =>
    match runSchedules f n with
    | some (ids, s) =>
      match TaskScheduler.schedule s (f n) with
      | some (id, s2) => some (ids ++ [id], s2)
      | Option.none => Option.none
    | Option.none => Option.none

/-- A concrete zero-delay `schedule` call used by the concrete executions
below: no binding, a non-null action pointer, application context. -/
def immCall : SchedCall := ⟨0, 5, ThreadContext.application, 0, 0⟩

/-- The identifiers `1, 2, …, n` returned by the first `n` schedule calls on a
fresh scheduler. -/
def idsUpTo (n : Nat) : List Nat := (List.range n).map (fun i => i + 1)

/-- Validity of an operation in the amended invariant claim: `cancel` must
use a non-zero identifier (the facade `AppThread::cancel` enforces exactly
this with its `if (taskId)` guard). -/
def SchedOp.nonzeroCancel : SchedOp → Prop
  | SchedOp.cancel id => id ≠ 0
  | _ => True

instance instDecidableNonzeroCancel : (op : SchedOp) → Decidable (SchedOp.nonzeroCancel op)
  | SchedOp.schedule _ => Decidable.isTrue trivial
  | SchedOp.processImm _ => Decidable.isTrue trivial
  | SchedOp.delayTickAll => Decidable.isTrue trivial
  | SchedOp.cancel id => (inferInstance : Decidable (id ≠ 0))

/-- The scheduler state after `[schedule immCall, cancel 1]` on a fresh
scheduler: the pool is empty again and the identifier counter is 1. -/
def witnessState : SchedulerState :=
  ⟨List.replicate WTK_OS_TASKS TaskControlBlock.cleared, 0, 0, 1⟩

theorem immCount_cons (t : TaskControlBlock) (ts : List TaskControlBlock) :
    immCount (t :: ts) = (if t.id ≠ 0 ∧ t.delayTicks = 0 then 1 else 0) + immCount ts :=
  rfl

theorem delCount_cons (t : TaskControlBlock) (ts : List TaskControlBlock) :
    delCount (t :: ts) = (if t.id ≠ 0 ∧ t.delayTicks ≠ 0 then 1 else 0) + delCount ts :=
  rfl

theorem occCount_eq_add (l : List TaskControlBlock) :
    occCount l = immCount l + delCount l := by
  induction l with
  | nil => rfl
  | cons t ts ih =>
    by_cases h0 : t.id = 0 <;> by_cases hd : t.delayTicks = 0 <;>
      simp [occCount, immCount_cons, delCount_cons, h0, hd, ih] <;> omega

theorem occCount_le_length (l : List TaskControlBlock) :
    occCount l ≤ l.length := by
  induction l with
  | nil => exact Nat.le_refl 0
  | cons t ts ih =>
    by_cases h0 : t.id = 0 <;> simp [occCount, h0, List.length_cons] <;> omega

/-- Scanning the pool with `Task::process` keeps each counter equal to the
matching per-state count plus whatever slack `a`, `b` it started with, and
keeps the pool length. -/
theorem processList_counts (context : ThreadContext) :
    ∀ (l : List TaskControlBlock) (imm del a b : Nat),
      imm = immCount l + a → del = delCount l + b →
      (TaskScheduler.processList context l imm del).immediate
          = immCount (TaskScheduler.processList context l imm del).tasks + a ∧
      (TaskScheduler.processList context l imm del).delayed
          = delCount (TaskScheduler.processList context l imm del).tasks + b ∧
      (TaskScheduler.processList context l imm del).tasks.length = l.length := by
  intro l
  induction l with
  | nil =>
    intro imm del a b h1 h2
    simp [TaskScheduler.processList, immCount, delCount] at *
    exact ⟨h1, h2⟩
  | cons t ts ih =>
    intro imm del a b h1 h2
    by_cases hskip : t.id = 0 ∨ t.delayTicks ≠ 0 ∨ t.context ≠ context
    · have hp : Task.process t context imm del = ⟨t, imm, del, Option.none⟩ := by
        unfold Task.process; rw [if_pos hskip]
      have hrec := ih imm del (a + (if t.id ≠ 0 ∧ t.delayTicks = 0 then 1 else 0))
        (b + (if t.id ≠ 0 ∧ t.delayTicks ≠ 0 then 1 else 0))
        (by rw [immCount_cons] at h1; omega) (by rw [delCount_cons] at h2; omega)
      simp only [TaskScheduler.processList, hp]
      refine ⟨?_, ?_, ?_⟩
      · rw [immCount_cons]; omega
      · rw [delCount_cons]; omega
      · simp [hrec.2.2]
    · push_neg at hskip
      obtain ⟨hid, hdelay, hctx⟩ := hskip
      have himm : imm ≠ 0 := by
        rw [immCount_cons, if_pos ⟨hid, hdelay⟩] at h1; omega
      by_cases hreset : t.resetTicks ≠ 0
      · have hp : Task.process t context imm del =
            ⟨{ t with delayTicks := t.resetTicks }, imm - 1, del + 1,
             some (if t.binding ≠ 0 then Invocation.binding t.action t.binding
                   else Invocation.plain t.action)⟩ := by
          unfold Task.process
          rw [if_neg (by push_neg; exact ⟨hid, hdelay, hctx⟩)]
          simp only [if_pos hreset, if_pos himm]
        have hrec := ih (imm - 1) (del + 1) a (b + 1)
          (by rw [immCount_cons, if_pos ⟨hid, hdelay⟩] at h1; omega)
          (by rw [delCount_cons, if_neg (by simp [hdelay])] at h2; omega)
        simp only [TaskScheduler.processList, hp]
        refine ⟨?_, ?_, ?_⟩
        · rw [immCount_cons]
          simp only [ne_eq, hreset, not_false_eq_true, and_false, if_false]
          omega
        · rw [delCount_cons]
          simp only [ne_eq, hid, not_false_eq_true, hreset, and_true, true_and, if_true]
          omega
        · simp [hrec.2.2]
      · push_neg at hreset
        have hp : Task.process t context imm del =
            ⟨TaskControlBlock.cleared, imm - 1, del,
             some (if t.binding ≠ 0 then Invocation.binding t.action t.binding
                   else Invocation.plain t.action)⟩ := by
          unfold Task.process
          rw [if_neg (by push_neg; exact ⟨hid, hdelay, hctx⟩)]
          simp only [hreset, ne_eq, not_true_eq_false, if_false, if_pos himm]
        have hrec := ih (imm - 1) del a b
          (by rw [immCount_cons, if_pos ⟨hid, hdelay⟩] at h1; omega)
          (by rw [delCount_cons, if_neg (by simp [hdelay])] at h2; omega)
        simp only [TaskScheduler.processList, hp]
        refine ⟨?_, ?_, ?_⟩
        · rw [immCount_cons]
          simp only [TaskControlBlock.cleared, ne_eq, not_true_eq_false, false_and, if_false]
          omega
        · rw [delCount_cons]
          simp only [TaskControlBlock.cleared, ne_eq, not_true_eq_false, false_and, if_false]
          omega
        · simp [hrec.2.2]

/-- Scanning the pool with `Task::delayTick` preserves the counter
consistency (with slack) and the pool length. -/
theorem delayTickList_counts :
    ∀ (l : List TaskControlBlock) (imm del a b : Nat),
      imm = immCount l + a → del = delCount l + b →
      (TaskScheduler.delayTickList l imm del).immediate
          = immCount (TaskScheduler.delayTickList l imm del).tasks + a ∧
      (TaskScheduler.delayTickList l imm del).delayed
          = delCount (TaskScheduler.delayTickList l imm del).tasks + b ∧
      (TaskScheduler.delayTickList l imm del).tasks.length = l.length := by
  intro l
  induction l with
  | nil =>
    intro imm del a b h1 h2
    simp [TaskScheduler.delayTickList, immCount, delCount] at *
    exact ⟨h1, h2⟩
  | cons t ts ih =>
    intro imm del a b h1 h2
    by_cases hact : t.id ≠ 0 ∧ t.delayTicks ≠ 0
    · have hdel : del ≠ 0 := by
        rw [delCount_cons, if_pos hact] at h2; omega
      by_cases hz : t.delayTicks - 1 = 0
      · have hp : Task.delayTick t imm del =
            ⟨{ t with delayTicks := t.delayTicks - 1 }, imm + 1, del - 1, true⟩ := by
          unfold Task.delayTick
          rw [if_pos hact, if_pos hz]
          simp only [if_pos hdel]
        have hrec := ih (imm + 1) (del - 1) (a + 1) b
          (by rw [immCount_cons, if_neg (by simp [hact.2])] at h1; omega)
          (by rw [delCount_cons, if_pos hact] at h2; omega)
        simp only [TaskScheduler.delayTickList, hp]
        refine ⟨?_, ?_, ?_⟩
        · rw [immCount_cons]
          simp only [ne_eq, hact.1, not_false_eq_true, hz, and_true, true_and, if_true]
          omega
        · rw [delCount_cons]
          simp only [ne_eq, hz, not_true_eq_false, and_false, if_false]
          omega
        · simp [hrec.2.2]
      · have hp : Task.delayTick t imm del =
            ⟨{ t with delayTicks := t.delayTicks - 1 }, imm, del, false⟩ := by
          unfold Task.delayTick
          rw [if_pos hact, if_neg hz]
        have hrec := ih imm del (a + 0) (b + 1)
          (by rw [immCount_cons, if_neg (by simp [hact.2])] at h1; omega)
          (by rw [delCount_cons, if_pos hact] at h2; omega)
        simp only [TaskScheduler.delayTickList, hp]
        refine ⟨?_, ?_, ?_⟩
        · rw [immCount_cons]
          simp only [ne_eq, hz, not_false_eq_true, and_false, if_false, hact.1]
          simp only [hz, and_false, if_false] at *
          omega
        · rw [delCount_cons]
          simp only [ne_eq, hact.1, not_false_eq_true, hz, true_and, if_true]
          omega
        · simp [hrec.2.2]
    · have hp : Task.delayTick t imm del = ⟨t, imm, del, false⟩ := by
        unfold Task.delayTick
        rw [if_neg hact]
      have hrec := ih imm del (a + (if t.id ≠ 0 ∧ t.delayTicks = 0 then 1 else 0))
        (b + (if t.id ≠ 0 ∧ t.delayTicks ≠ 0 then 1 else 0))
        (by rw [immCount_cons] at h1; omega) (by rw [delCount_cons] at h2; omega)
      simp only [TaskScheduler.delayTickList, hp]
      refine ⟨?_, ?_, ?_⟩
      · rw [immCount_cons]; omega
      · rw [delCount_cons]; omega
      · simp [hrec.2.2]

/-- Scanning the pool with `Task::cancel` on a NON-ZERO identifier preserves
the counter consistency (with slack) and the pool length.  (For a zero
identifier the scan can match an empty slot and break the invariant; see the
counterexample below.) -/
theorem cancelGo_counts (id : Nat) (hid : id ≠ 0) :
    ∀ (l : List TaskControlBlock) (imm del a b : Nat),
      imm = immCount l + a → del = delCount l + b →
      (TaskScheduler.cancelGo id imm del l).immediate
          = immCount (TaskScheduler.cancelGo id imm del l).tasks + a ∧
      (TaskScheduler.cancelGo id imm del l).delayed
          = delCount (TaskScheduler.cancelGo id imm del l).tasks + b ∧
      (TaskScheduler.cancelGo id imm del l).tasks.length = l.length := by
  intro l
  induction l with
  | nil =>
    intro imm del a b h1 h2
    simp [TaskScheduler.cancelGo, immCount, delCount] at *
    exact ⟨h1, h2⟩
  | cons t ts ih =>
    intro imm del a b h1 h2
    by_cases hm : t.id = id
    · have htid : t.id ≠ 0 := by rw [hm]; exact hid
      by_cases hd : t.delayTicks ≠ 0
      · have hdel : del ≠ 0 := by
          rw [delCount_cons, if_pos ⟨htid, hd⟩] at h2; omega
        have hp : Task.cancel t id imm del =
            ⟨TaskControlBlock.cleared, 0, imm, del - 1, true⟩ := by
          unfold Task.cancel
          rw [if_pos hm]
          simp only [if_pos hd, if_pos hdel]
        simp only [TaskScheduler.cancelGo, hp]
        simp only [if_true]
        refine ⟨?_, ?_, ?_⟩
        · rw [immCount_cons] at h1 ⊢
          simp only [TaskControlBlock.cleared, ne_eq, not_true_eq_false, false_and,
            if_false] at *
          rw [if_neg (by simp [hd])] at h1
          omega
        · rw [delCount_cons] at h2 ⊢
          simp only [TaskControlBlock.cleared, ne_eq, not_true_eq_false, false_and,
            if_false] at *
          rw [if_pos ⟨htid, hd⟩] at h2
          omega
        · simp
      · push_neg at hd
        have himm : imm ≠ 0 := by
          rw [immCount_cons, if_pos ⟨htid, hd⟩] at h1; omega
        have hp : Task.cancel t id imm del =
            ⟨TaskControlBlock.cleared, 0, imm - 1, del, true⟩ := by
          unfold Task.cancel
          rw [if_pos hm]
          simp only [hd, ne_eq, not_true_eq_false, if_false, if_pos himm]
        simp only [TaskScheduler.cancelGo, hp]
        simp only [if_true]
        refine ⟨?_, ?_, ?_⟩
        · rw [immCount_cons] at h1 ⊢
          simp only [TaskControlBlock.cleared, ne_eq, not_true_eq_false, false_and,
            if_false] at *
          rw [if_pos ⟨htid, hd⟩] at h1
          omega
        · rw [delCount_cons] at h2 ⊢
          simp only [TaskControlBlock.cleared, ne_eq, not_true_eq_false, false_and,
            if_false] at *
          rw [if_neg (by simp [hd])] at h2
          omega
        · simp
    · have hp : Task.cancel t id imm del =
          ⟨t, id, imm, del, false⟩ := by
        unfold Task.cancel
        rw [if_neg hm]
      have hrec := ih imm del (a + (if t.id ≠ 0 ∧ t.delayTicks = 0 then 1 else 0))
        (b + (if t.id ≠ 0 ∧ t.delayTicks ≠ 0 then 1 else 0))
        (by rw [immCount_cons] at h1; omega) (by rw [delCount_cons] at h2; omega)
      simp only [TaskScheduler.cancelGo, hp]
      simp only [Bool.false_eq_true, if_false]
      refine ⟨?_, ?_, ?_⟩
      · rw [immCount_cons]; omega
      · rw [delCount_cons]; omega
      · simp [hrec.2.2]

/-- The first-fit scan fails (the fatal path) exactly when it runs over a pool
with no empty slot. -/
theorem scheduleGo_none (uid arg action : Nat) (context : ThreadContext)
    (time reset : Nat) :
    ∀ l : List TaskControlBlock, (∀ t ∈ l, t.id ≠ 0) →
      TaskScheduler.scheduleGo uid arg action context time reset l = Option.none := by
  intro l
  induction l with
  | nil => intro _; rfl
  | cons t ts ih =>
    intro h
    have ht : t.id ≠ 0 := h t (List.mem_cons_self t ts)
    have ha : Task.acquireUnsafe uid t = (false, uid, t) := by
      unfold Task.acquireUnsafe; rw [if_neg ht]
    unfold TaskScheduler.scheduleGo
    rw [ha, ih (fun x hx => h x (List.mem_cons_of_mem t hx))]

/-- The first-fit scan over a pool whose prefix is fully occupied and whose
next slot is empty acquires exactly that slot and fills it with the call's
arguments and the freshly incremented identifier. -/
theorem scheduleGo_first_fit (uid arg action : Nat) (context : ThreadContext)
    (time reset : Nat) (e : TaskControlBlock) (he : e.id = 0)
    (rest : List TaskControlBlock) :
    ∀ pre : List TaskControlBlock, (∀ t ∈ pre, t.id ≠ 0) →
      TaskScheduler.scheduleGo uid arg action context time reset (pre ++ e :: rest)
        = some ((uid + 1) % uidModulus,
            pre ++ ⟨(uid + 1) % uidModulus, arg, action, context, time, reset⟩ :: rest) := by
  intro pre
  induction pre with
  | nil =>
    intro _
    simp only [List.nil_append]
    have ha : Task.acquireUnsafe uid e =
        (true, (uid + 1) % uidModulus, { e with id := (uid + 1) % uidModulus }) := by
      unfold Task.acquireUnsafe; rw [if_pos he]
    unfold TaskScheduler.scheduleGo
    rw [ha]
    rfl
  | cons t pre ih =>
    intro h
    have ht : t.id ≠ 0 := h t (List.mem_cons_self t pre)
    have ha : Task.acquireUnsafe uid t = (false, uid, t) := by
      unfold Task.acquireUnsafe; rw [if_neg ht]
    simp only [List.cons_append]
    unfold TaskScheduler.scheduleGo
    rw [ha, ih (fun x hx => h x (List.mem_cons_of_mem t hx))]

/-- A successful first-fit scan returns the incremented identifier, keeps the
pool length, and (when the wrapped identifier is non-zero) raises exactly the
count matching the call's delay class. -/
theorem scheduleGo_counts (uid arg action : Nat) (context : ThreadContext)
    (time reset : Nat) :
    ∀ (l : List TaskControlBlock) (id : Nat) (l2 : List TaskControlBlock),
      TaskScheduler.scheduleGo uid arg action context time reset l = some (id, l2) →
      id = (uid + 1) % uidModulus ∧ l2.length = l.length ∧
      (id ≠ 0 →
        immCount l2 = immCount l + (if time = 0 then 1 else 0) ∧
        delCount l2 = delCount l + (if time = 0 then 0 else 1)) := by
  intro l
  induction l with
  | nil => intro id l2 h; exact absurd h (by simp [TaskScheduler.scheduleGo])
  | cons t ts ih =>
    intro id l2 h
    by_cases ht : t.id = 0
    · have ha : Task.acquireUnsafe uid t =
          (true, (uid + 1) % uidModulus, { t with id := (uid + 1) % uidModulus }) := by
        unfold Task.acquireUnsafe; rw [if_pos ht]
      unfold TaskScheduler.scheduleGo at h
      rw [ha] at h
      simp only [Task.scheduleUnsafe, Option.some.injEq, Prod.mk.injEq] at h
      obtain ⟨hid, hl2⟩ := h
      subst hid
      subst hl2
      refine ⟨rfl, by simp, ?_⟩
      intro hnz
      by_cases htime : time = 0 <;>
        constructor <;>
          simp [immCount_cons, delCount_cons, ht, hnz, htime] <;> omega
    · have ha : Task.acquireUnsafe uid t = (false, uid, t) := by
        unfold Task.acquireUnsafe; rw [if_neg ht]
      unfold TaskScheduler.scheduleGo at h
      rw [ha] at h
      cases hrec : TaskScheduler.scheduleGo uid arg action context time reset ts with
      | none => rw [hrec] at h; exact absurd h (by simp)
      | some p =>
        rw [hrec] at h
        simp only [Option.some.injEq, Prod.mk.injEq] at h
        obtain ⟨hid, hl2⟩ := h
        obtain ⟨hid2, hlen2, hcnt2⟩ := ih p.1 p.2 (by rw [hrec])
        subst hid
        refine ⟨hid2, ?_, ?_⟩
        · rw [← hl2]; simp [hlen2]
        · intro hnz
          obtain ⟨hc1, hc2⟩ := hcnt2 hnz
          rw [← hl2]
          constructor
          · rw [immCount_cons, immCount_cons, hc1]; omega
          · rw [delCount_cons, delCount_cons, hc2]; omega

/-- Shape of the scheduler after `n ≤ WTK_OS_TASKS` schedule calls on a fresh
instance: the returned identifiers are exactly `1..n`, the identifier counter
is `n`, and the pool is an occupied prefix of length `n` followed by empty
slots. -/
theorem runSchedules_spec (f : Nat → SchedCall) :
    ∀ n, n ≤ WTK_OS_TASKS →
      ∃ s : SchedulerState,
        runSchedules f n = some (idsUpTo n, s) ∧ s.uid = n ∧
        ∃ pre : List TaskControlBlock,
          s.tasks = pre ++ List.replicate (WTK_OS_TASKS - n) TaskControlBlock.cleared ∧
          pre.length = n ∧ (∀ t ∈ pre, t.id ≠ 0) := by
  intro n
  induction n with
  | zero =>
    intro _
    exact ⟨freshScheduler, rfl, rfl, [], by simp [freshScheduler], rfl, by simp⟩
  | succ n ih =>
    intro hn
    obtain ⟨s, hrun, huid, pre, htasks, hlen, hpre⟩ := ih (Nat.le_of_succ_le hn)
    have hsplit : List.replicate (WTK_OS_TASKS - n) TaskControlBlock.cleared
        = TaskControlBlock.cleared ::
            List.replicate (WTK_OS_TASKS - (n + 1)) TaskControlBlock.cleared := by
      have he : WTK_OS_TASKS - n = (WTK_OS_TASKS - (n + 1)) + 1 := by
        unfold WTK_OS_TASKS at *; omega
      rw [he, List.replicate_succ]
    have hmod : (s.uid + 1) % uidModulus = n + 1 := by
      rw [huid]
      apply Nat.mod_eq_of_lt
      unfold WTK_OS_TASKS at hn
      unfold uidModulus
      omega
    have hgo := scheduleGo_first_fit s.uid (f n).arg (f n).action (f n).context
      (f n).time (f n).reset TaskControlBlock.cleared rfl
      (List.replicate (WTK_OS_TASKS - (n + 1)) TaskControlBlock.cleared) pre hpre
    rw [hmod] at hgo
    have hsched : TaskScheduler.schedule s (f n)
        = some (n + 1,
            { tasks := pre ++ (⟨n + 1, (f n).arg, (f n).action, (f n).context,
                  (f n).time, (f n).reset⟩ : TaskControlBlock) ::
                List.replicate (WTK_OS_TASKS - (n + 1)) TaskControlBlock.cleared,
              immediate := if (f n).time ≠ 0 then s.immediate else s.immediate + 1,
              delayed := if (f n).time ≠ 0 then s.delayed + 1 else s.delayed,
              uid := n + 1 }) := by
      unfold TaskScheduler.schedule
      rw [htasks, hsplit, hgo]
    refine ⟨({ tasks := pre ++ (⟨n + 1, (f n).arg, (f n).action, (f n).context,
                     (f n).time, (f n).reset⟩ : TaskControlBlock) ::
                   List.replicate (WTK_OS_TASKS - (n + 1)) TaskControlBlock.cleared,
               immediate := if (f n).time ≠ 0 then s.immediate else s.immediate + 1,
               delayed := if (f n).time ≠ 0 then s.delayed + 1 else s.delayed,
               uid := n + 1 } : SchedulerState),
        ?_, rfl, pre ++ [⟨n + 1, (f n).arg, (f n).action, (f n).context,
          (f n).time, (f n).reset⟩], ?_, ?_, ?_⟩
    · show runSchedules f (n + 1) = _
      unfold runSchedules
      rw [hrun]
      show (match TaskScheduler.schedule s (f n) with
            | some (id, s2) => some (idsUpTo n ++ [id], s2)
            | Option.none => Option.none) = _
      rw [hsched]
      have hids : idsUpTo n ++ [n + 1] = idsUpTo (n + 1) := by
        unfold idsUpTo
        rw [List.range_succ, List.map_append]
        rfl
      show some (idsUpTo n ++ [n + 1], _) = _
      rw [hids]
    · simp [List.append_assoc]
    · simp [hlen]
    · intro t htmem
      rcases List.mem_append.mp htmem with hin | hin
      · exact hpre t hin
      · rw [List.mem_singleton.mp hin]
        exact Nat.succ_ne_zero n

theorem immCount_replicate_cleared (n : Nat) :
    immCount (List.replicate n TaskControlBlock.cleared) = 0 := by
  induction n with
  | zero => rfl
  | succ n ih => simpa [List.replicate_succ, immCount_cons, TaskControlBlock.cleared]

theorem delCount_replicate_cleared (n : Nat) :
    delCount (List.replicate n TaskControlBlock.cleared) = 0 := by
  induction n with
  | zero => rfl
  | succ n ih => simpa [List.replicate_succ, delCount_cons, TaskControlBlock.cleared]

/-- A successful `schedule` step from a counter-consistent state whose
identifier counter is not about to wrap keeps the counters consistent, keeps
the pool size, and advances the identifier counter by one. -/
theorem schedule_step_consistent (s : SchedulerState) (c : SchedCall)
    (hc : s.consistent) (hu : s.uid + 1 < uidModulus) (id : Nat)
    (s2 : SchedulerState) (h : TaskScheduler.schedule s c = some (id, s2)) :
    s2.consistent ∧ s2.tasks.length = s.tasks.length ∧ s2.uid = s.uid + 1 := by
  unfold TaskScheduler.schedule at h
  cases hgo : TaskScheduler.scheduleGo s.uid c.arg c.action c.context c.time c.reset s.tasks with
  | none => rw [hgo] at h; exact absurd h (by simp)
  | some p =>
    rw [hgo] at h
    simp only [Option.some.injEq, Prod.mk.injEq] at h
    obtain ⟨hid, hs2⟩ := h
    obtain ⟨hid2, hlen, hcnt⟩ := scheduleGo_counts s.uid c.arg c.action c.context
      c.time c.reset s.tasks p.1 p.2 (by rw [hgo])
    have hmod : (s.uid + 1) % uidModulus = s.uid + 1 := Nat.mod_eq_of_lt hu
    have hnz : p.1 ≠ 0 := by rw [hid2, hmod]; omega
    obtain ⟨hc1, hc2⟩ := hcnt hnz
    obtain ⟨hci, hcd⟩ := hc
    rw [← hs2]
    refine ⟨⟨?_, ?_⟩, hlen, ?_⟩
    · show (if c.time ≠ 0 then s.immediate else s.immediate + 1) = immCount p.2
      by_cases ht : c.time = 0 <;> simp [ht, hc1, hci]
    · show (if c.time ≠ 0 then s.delayed + 1 else s.delayed) = delCount p.2
      by_cases ht : c.time = 0 <;> simp [ht, hc2, hcd]
    · show p.1 = s.uid + 1
      rw [hid2, hmod]

/-- A `processImmediate` pass keeps the counters consistent, the pool size,
and the identifier counter. -/
theorem processImm_step_consistent (s : SchedulerState) (context : ThreadContext)
    (hc : s.consistent) :
    (TaskScheduler.processImmediate s context).1.consistent ∧
    (TaskScheduler.processImmediate s context).1.tasks.length = s.tasks.length ∧
    (TaskScheduler.processImmediate s context).1.uid = s.uid := by
  obtain ⟨hci, hcd⟩ := hc
  obtain ⟨h1, h2, h3⟩ := processList_counts context s.tasks s.immediate s.delayed 0 0
    (by omega) (by omega)
  exact ⟨⟨by simpa using h1, by simpa using h2⟩, h3, rfl⟩

/-- A delay-tick pass keeps the counters consistent, the pool size, and the
identifier counter. -/
theorem delay_step_consistent (s : SchedulerState) (hc : s.consistent) :
    (TaskScheduler.processDelayed s).consistent ∧
    (TaskScheduler.processDelayed s).tasks.length = s.tasks.length ∧
    (TaskScheduler.processDelayed s).uid = s.uid := by
  obtain ⟨hci, hcd⟩ := hc
  obtain ⟨h1, h2, h3⟩ := delayTickList_counts s.tasks s.immediate s.delayed 0 0
    (by omega) (by omega)
  exact ⟨⟨by simpa using h1, by simpa using h2⟩, h3, rfl⟩

/-- A `cancel` with a NON-ZERO identifier keeps the counters consistent, the
pool size, and the identifier counter. -/
theorem cancel_step_consistent (s : SchedulerState) (id : Nat) (hid : id ≠ 0)
    (hc : s.consistent) :
    (TaskScheduler.cancel s id).2.consistent ∧
    (TaskScheduler.cancel s id).2.tasks.length = s.tasks.length ∧
    (TaskScheduler.cancel s id).2.uid = s.uid := by
  obtain ⟨hci, hcd⟩ := hc
  obtain ⟨h1, h2, h3⟩ := cancelGo_counts id hid s.tasks s.immediate s.delayed 0 0
    (by omega) (by omega)
  exact ⟨⟨by simpa using h1, by simpa using h2⟩, h3, rfl⟩

/-- Running any sequence of valid operations from a counter-consistent state
(with enough identifier headroom) keeps the counters consistent and the pool
size. -/
theorem run_preserves_consistent :
    ∀ (ops : List SchedOp) (s s2 : SchedulerState),
      (∀ op ∈ ops, SchedOp.nonzeroCancel op) →
      s.uid + ops.length < uidModulus →
      s.consistent →
      SchedulerState.run s ops = some s2 →
      s2.consistent ∧ s2.tasks.length = s.tasks.length := by
  intro ops
  induction ops with
  | nil =>
    intro s s2 _ _ hc hrun
    cases hrun
    exact ⟨hc, rfl⟩
  | cons op ops ih =>
    intro s s2 hval hbound hc hrun
    have hvalrest : ∀ o ∈ ops, SchedOp.nonzeroCancel o :=
      fun o ho => hval o (List.mem_cons_of_mem op ho)
    cases op with
    | schedule c =>
      cases hsch : TaskScheduler.schedule s c with
      | none =>
        unfold SchedulerState.run at hrun
        simp [SchedulerState.step, hsch] at hrun
      | some p =>
        unfold SchedulerState.run at hrun
        simp only [SchedulerState.step, hsch, Option.map] at hrun
        obtain ⟨hcons, hlen, huid⟩ := schedule_step_consistent s c hc
          (by simp only [List.length_cons] at hbound; omega) p.1 p.2 (by rw [hsch])
        obtain ⟨hcons2, hlen2⟩ := ih p.2 s2 hvalrest
          (by simp only [List.length_cons] at hbound; omega) hcons hrun
        exact ⟨hcons2, by rw [hlen2, hlen]⟩
    | processImm context =>
      unfold SchedulerState.run at hrun
      simp only [SchedulerState.step] at hrun
      obtain ⟨hcons, hlen, huid⟩ := processImm_step_consistent s context hc
      obtain ⟨hcons2, hlen2⟩ := ih _ s2 hvalrest
        (by simp only [List.length_cons] at hbound; omega) hcons hrun
      exact ⟨hcons2, by rw [hlen2, hlen]⟩
    | delayTickAll =>
      unfold SchedulerState.run at hrun
      simp only [SchedulerState.step] at hrun
      obtain ⟨hcons, hlen, huid⟩ := delay_step_consistent s hc
      obtain ⟨hcons2, hlen2⟩ := ih _ s2 hvalrest
        (by simp only [List.length_cons] at hbound; omega) hcons hrun
      exact ⟨hcons2, by rw [hlen2, hlen]⟩
    | cancel id =>
      have hid : id ≠ 0 := hval (SchedOp.cancel id) (List.mem_cons_self _ _)
      unfold SchedulerState.run at hrun
      simp only [SchedulerState.step] at hrun
      obtain ⟨hcons, hlen, huid⟩ := cancel_step_consistent s id hid hc
      obtain ⟨hcons2, hlen2⟩ := ih _ s2 hvalrest
        (by simp only [List.length_cons] at hbound; omega) hcons hrun
      exact ⟨hcons2, by rw [hlen2, hlen]⟩

/-- C1: For every sequence of `schedule` calls on a fresh `TaskScheduler` of
length at most the pool capacity `WTK_OS_TASKS`, every identifier returned is
non-zero and pairwise distinct (the calls return exactly `1, 2, …, n`), and a
(capacity+1)-th `schedule` call issued while all slots are occupied (no prior
completion or cancellation) reaches the fatal crash primitive — the
`Option.none` outcome — instead of returning an identifier. -/
theorem schedule_ids_unique_and_exhaustion_fatal (f : Nat → SchedCall) (n : Nat)
    (hn : n ≤ WTK_OS_TASKS) :
    ∃ s : SchedulerState,
      runSchedules f n = some (idsUpTo n, s) ∧
      (∀ id ∈ idsUpTo n, id ≠ 0) ∧
      (idsUpTo n).Nodup ∧
      (n = WTK_OS_TASKS → ∀ c : SchedCall, TaskScheduler.schedule s c = Option.none) := by
  obtain ⟨s, hrun, huid, pre, htasks, hlen, hpre⟩ := runSchedules_spec f n hn
  refine ⟨s, hrun, ?_, ?_, ?_⟩
  · intro id hid
    unfold idsUpTo at hid
    obtain ⟨i, _, hi⟩ := List.mem_map.mp hid
    omega
  · unfold idsUpTo
    exact (List.nodup_range n).map (fun a b h => by omega)
  · intro hfull c
    subst hfull
    have hall : ∀ t ∈ s.tasks, t.id ≠ 0 := by
      rw [htasks]
      simpa using hpre
    unfold TaskScheduler.schedule
    rw [scheduleGo_none s.uid c.arg c.action c.context c.time c.reset s.tasks hall]

/-- Witness for C1 at the concrete input `f = fun _ => immCall`,
`n = WTK_OS_TASKS`. -/
theorem schedule_ids_unique_witness :
    WTK_OS_TASKS ≤ WTK_OS_TASKS ∧
    (∃ s : SchedulerState,
      runSchedules (fun _ => immCall) WTK_OS_TASKS = some (idsUpTo WTK_OS_TASKS, s) ∧
      (∀ id ∈ idsUpTo WTK_OS_TASKS, id ≠ 0) ∧
      (idsUpTo WTK_OS_TASKS).Nodup ∧
      (WTK_OS_TASKS = WTK_OS_TASKS →
        ∀ c : SchedCall, TaskScheduler.schedule s c = Option.none)) :=
  ⟨Nat.le_refl WTK_OS_TASKS,
   schedule_ids_unique_and_exhaustion_fatal (fun _ => immCall) WTK_OS_TASKS
     (Nat.le_refl WTK_OS_TASKS)⟩

/-- Counterexample to C2 as stated: from the all-empty initial state, one
zero-delay `schedule` (immediate = 1, one occupied task) followed by a
`cancel` whose identifier handle is 0 — exactly the value a previous cancel
leaves in the caller's handle — makes `Task::cancel` match the first EMPTY
pool slot and decrement the immediate counter, leaving immediate = delayed =
0 while one task is still occupied: the claimed equality fails after this
two-operation sequence. -/
theorem counters_invariant_fails_on_zero_cancel :
    (SchedulerState.run freshScheduler
        [SchedOp.schedule immCall, SchedOp.cancel 0]).map
      (fun s => (s.immediate + s.delayed, occCount s.tasks)) = some (0, 1) ∧
    (0 : Nat) ≠ 1 := by
  exact ⟨rfl, by decide⟩

/-- C2 (amended): starting from the all-empty initial scheduler state, after
every sequence of `schedule`, `processImmediate`, delay-tick and `cancel`
operations in which every cancel uses a NON-ZERO identifier (as the facade
`AppThread::cancel` guarantees) and which is shorter than 2^32 operations (so
the 32-bit identifier counter cannot wrap to zero), the immediate counter
plus the delayed counter equals the number of pool tasks with a non-zero
identifier, that sum is at most the pool capacity, and each counter equals
its own per-task count. -/
theorem counters_invariant_preserved (ops : List SchedOp)
    (hval : ∀ op ∈ ops, SchedOp.nonzeroCancel op)
    (hlen : ops.length < uidModulus) (s : SchedulerState)
    (hrun : SchedulerState.run freshScheduler ops = some s) :
    s.immediate + s.delayed = occCount s.tasks ∧
    s.immediate + s.delayed ≤ WTK_OS_TASKS ∧
    s.immediate = immCount s.tasks ∧ s.delayed = delCount s.tasks := by
  have hfresh : freshScheduler.consistent := by
    constructor
    · show (0 : Nat) = immCount (List.replicate WTK_OS_TASKS TaskControlBlock.cleared)
      rw [immCount_replicate_cleared]
    · show (0 : Nat) = delCount (List.replicate WTK_OS_TASKS TaskControlBlock.cleared)
      rw [delCount_replicate_cleared]
  obtain ⟨⟨h1, h2⟩, hlen2⟩ := run_preserves_consistent ops freshScheduler s hval
    (by simpa [freshScheduler] using hlen) hfresh hrun
  have hocc := occCount_eq_add s.tasks
  have hle := occCount_le_length s.tasks
  have hlen64 : s.tasks.length = WTK_OS_TASKS := by
    rw [hlen2]
    simp [freshScheduler]
  exact ⟨by omega, by omega, h1, h2⟩

/-- Witness for C2 at the concrete sequence
`[schedule immCall, cancel 1]` (a schedule followed by a valid cancel). -/
theorem counters_invariant_witness :
    (∀ op ∈ [SchedOp.schedule immCall, SchedOp.cancel 1], SchedOp.nonzeroCancel op) ∧
    ([SchedOp.schedule immCall, SchedOp.cancel 1].length < uidModulus) ∧
    (witnessState.immediate + witnessState.delayed = occCount witnessState.tasks ∧
      witnessState.immediate + witnessState.delayed ≤ WTK_OS_TASKS ∧
      witnessState.immediate = immCount witnessState.tasks ∧
      witnessState.delayed = delCount witnessState.tasks) :=
  ⟨by decide, by decide,
   counters_invariant_preserved [SchedOp.schedule immCall, SchedOp.cancel 1]
     (by decide) (by decide) witnessState rfl⟩

/-- C3: `Task::process` is a strict no-op (control block, both counters, no
invocation — other tasks are not even inputs of the per-task operation) unless
the identifier is non-zero, the remaining delay is zero and the stored context
equals the argument context (hence a task scheduled for the `frame` context is
never processed by an `application` pass and vice versa).  When the three
conditions hold and the immediate counter is positive, the binding action form
is invoked when the binding pointer is set and the plain form otherwise, and
afterwards the task either re-arms (`delayTicks := resetTicks`, one count
moved from immediate to delayed) when `resetTicks ≠ 0`, or is cleared to the
empty block with the immediate counter decremented when `resetTicks = 0` —
and the cleared block is a no-op for every later `process`, so a one-shot
task never fires twice. -/
theorem process_guard_dispatch_rearm (tcb : TaskControlBlock)
    (context : ThreadContext) (imm del : Nat) :
    (¬(tcb.id ≠ 0 ∧ tcb.delayTicks = 0 ∧ tcb.context = context) →
      Task.process tcb context imm del = ⟨tcb, imm, del, Option.none⟩) ∧
    ((tcb.id ≠ 0 ∧ tcb.delayTicks = 0 ∧ tcb.context = context) → 0 < imm →
      (tcb.resetTicks ≠ 0 →
        Task.process tcb context imm del
          = ⟨{ tcb with delayTicks := tcb.resetTicks }, imm - 1, del + 1,
             some (if tcb.binding ≠ 0 then Invocation.binding tcb.action tcb.binding
                   else Invocation.plain tcb.action)⟩) ∧
      (tcb.resetTicks = 0 →
        Task.process tcb context imm del
          = ⟨TaskControlBlock.cleared, imm - 1, del,
             some (if tcb.binding ≠ 0 then Invocation.binding tcb.action tcb.binding
                   else Invocation.plain tcb.action)⟩ ∧
        ∀ (context2 : ThreadContext) (imm2 del2 : Nat),
          Task.process TaskControlBlock.cleared context2 imm2 del2
            = ⟨TaskControlBlock.cleared, imm2, del2, Option.none⟩)) := by
  constructor
  · intro h
    have hc : tcb.id = 0 ∨ tcb.delayTicks ≠ 0 ∨ tcb.context ≠ context := by
      by_contra hn
      push_neg at hn
      exact h ⟨hn.1, hn.2.1, hn.2.2⟩
    unfold Task.process
    rw [if_pos hc]
  · rintro ⟨h1, h2, h3⟩ himm
    have hc : ¬(tcb.id = 0 ∨ tcb.delayTicks ≠ 0 ∨ tcb.context ≠ context) := by
      push_neg
      exact ⟨h1, h2, h3⟩
    have himm2 : imm ≠ 0 := by omega
    constructor
    · intro hr
      unfold Task.process
      rw [if_neg hc]
      simp only [if_pos hr, if_pos himm2]
    · intro hr
      constructor
      · unfold Task.process
        rw [if_neg hc]
        simp only [hr, ne_eq, not_true_eq_false, if_false, if_pos himm2]
      · intro context2 imm2 del2
        unfold Task.process
        simp [TaskControlBlock.cleared]

/-- Witness for C3 at concrete inputs: a mismatched-context task is untouched,
and a one-shot application task with a set binding fires with the binding
form then clears. -/
theorem process_guard_dispatch_rearm_witness :
    (¬((⟨7, 3, 5, ThreadContext.frame, 0, 0⟩ : TaskControlBlock).id ≠ 0 ∧
        (⟨7, 3, 5, ThreadContext.frame, 0, 0⟩ : TaskControlBlock).delayTicks = 0 ∧
        (⟨7, 3, 5, ThreadContext.frame, 0, 0⟩ : TaskControlBlock).context
          = ThreadContext.application) →
      Task.process ⟨7, 3, 5, ThreadContext.frame, 0, 0⟩ ThreadContext.application 2 1
        = ⟨⟨7, 3, 5, ThreadContext.frame, 0, 0⟩, 2, 1, Option.none⟩) ∧
    Task.process ⟨7, 3, 5, ThreadContext.frame, 0, 0⟩ ThreadContext.application 2 1
      = ⟨⟨7, 3, 5, ThreadContext.frame, 0, 0⟩, 2, 1, Option.none⟩ ∧
    Task.process ⟨9, 3, 5, ThreadContext.application, 0, 0⟩ ThreadContext.application 1 0
      = ⟨TaskControlBlock.cleared, 0, 0, some (Invocation.binding 5 3)⟩ :=
  ⟨(process_guard_dispatch_rearm ⟨7, 3, 5, ThreadContext.frame, 0, 0⟩
      ThreadContext.application 2 1).1,
   (process_guard_dispatch_rearm ⟨7, 3, 5, ThreadContext.frame, 0, 0⟩
      ThreadContext.application 2 1).1 (by decide),
   (((process_guard_dispatch_rearm ⟨9, 3, 5, ThreadContext.application, 0, 0⟩
      ThreadContext.application 1 0).2 (by decide) (by decide)).2 rfl).1⟩

/-- C4 (code-bug evidence): after scheduling two immediate tasks and
canceling the first (which zeroes the caller's handle), the state reads
immediate = 1 with one occupied task; repeating the cancel with the
now-zeroed handle is NOT a no-op — `Task::cancel` matches the first empty
pool slot (`m_tcb.id == id` with both sides 0), reports a cancel, and
decrements the immediate counter to 0 although the second task is still
scheduled. -/
theorem cancel_zero_id_decrements_immediate_counter :
    (SchedulerState.run freshScheduler
        [SchedOp.schedule immCall, SchedOp.schedule immCall, SchedOp.cancel 1]).map
      (fun s => (s.immediate, s.delayed, occCount s.tasks)) = some (1, 0, 1) ∧
    (SchedulerState.run freshScheduler
        [SchedOp.schedule immCall, SchedOp.schedule immCall, SchedOp.cancel 1,
         SchedOp.cancel 0]).map
      (fun s => (s.immediate, s.delayed, occCount s.tasks)) = some (0, 0, 1) :=
  ⟨rfl, rfl⟩

/-- Counterexample to C5 as stated: `Semaphore::wait` called from interrupt
context does NOT return false — on both backends its first line is
`if (m_isTaken || CurrentThread::isISRContext()) Crash::here();`, so the call
reaches the fatal crash primitive. -/
theorem semaphore_wait_isr_crashes :
    Semaphore.waitA true SemStateA.fresh = (WaitOutcome.crash, SemStateA.fresh) ∧
    Semaphore.waitF true SemStateF.fresh = (WaitOutcome.crash, SemStateF.fresh) :=
  ⟨rfl, rfl⟩

/-- C5 (amended): `Mutex::acquire` and `Mutex::release` called from interrupt
context return false without blocking, without touching the mutex state and
without reaching the crash primitive, on both backends; `Semaphore::wait`
from interrupt context, by contrast, always reaches the fatal crash
primitive (on both backends), leaving the semaphore state unchanged. -/
theorem isr_mutex_returns_false_semaphore_wait_fatal :
    (∀ created createOk grabOk : Bool,
      Mutex.acquire true created createOk grabOk = (MutexResult.ok false, created)) ∧
    (∀ created putOk : Bool,
      Mutex.release true created putOk = (MutexResult.ok false, created)) ∧
    (∀ s : SemStateA, Semaphore.waitA true s = (WaitOutcome.crash, s)) ∧
    (∀ s : SemStateF, Semaphore.waitF true s = (WaitOutcome.crash, s)) := by
  refine ⟨fun _ _ _ => rfl, fun created putOk => ?_, fun s => ?_, fun s => ?_⟩
  · unfold Mutex.release
    simp
  · unfold Semaphore.waitA
    simp
  · unfold Semaphore.waitF
    simp

/-- C6: on the coalescing event channel, two `call`s issued from outside the
target context before the scheduled dispatch has run deliver the handler
exactly once, and it observes the second argument (last write wins, single
delivery): the full trace — both calls, the one queued dispatch, and a
further dispatch opportunity — produces exactly the invocation list `[b]`. -/
theorem event_coalesces_last_write_single_delivery {α : Type}
    (s0 : EventState α) (a b : α) (hp : s0.pending = false) (hq : s0.queued = 0)
    (hs : s0.subscribed = true) :
    (Event.run s0 [EventOp.call false a, EventOp.call false b,
                   EventOp.deliver, EventOp.deliver]).2 = [b] := by
  obtain ⟨arg, sub, pend, qd⟩ := s0
  simp only at hp hq hs
  subst hp hq hs
  rfl

/-- Witness for C6 at the concrete channel state `⟨0, true, false, 0⟩` with
arguments 1 then 2. -/
theorem event_coalesces_witness :
    (Event.run (⟨0, true, false, 0⟩ : EventState Nat)
      [EventOp.call false 1, EventOp.call false 2,
       EventOp.deliver, EventOp.deliver]).2 = [2] :=
  event_coalesces_last_write_single_delivery ⟨0, true, false, 0⟩ 1 2 rfl rfl rfl

/-- C7 (code-bug evidence): on the Azure RTOS backend (`TX_MAX_PRIORITIES`
= 32) the increment of a priority already at `realtime` (raw 0) produces raw
-1 and the decrement of a priority already at `idle` (raw 31) produces raw
32 — both outside the legal `[realtime, idle]` range, because the source
swapped the two clamp guards; the FreeRTOS backend clamps both operations
correctly, and the offset arithmetic clamps through `cap` on both. -/
theorem azure_priority_step_escapes_bounds :
    azureInc 32 azureRealtime = -1 ∧
    ¬ azureInRange 32 (azureInc 32 azureRealtime) ∧
    azureDec 32 (azureIdle 32) = 32 ∧
    ¬ azureInRange 32 (azureDec 32 (azureIdle 32)) ∧
    freeInc freeRealtime = freeRealtime ∧
    freeDec freeIdle = freeIdle ∧
    azureAdd 32 azureRealtime 1 = azureRealtime ∧
    azureSub 32 (azureIdle 32) 1 = azureIdle 32 := by
  refine ⟨rfl, by unfold azureInRange; decide, rfl, by unfold azureInRange; decide,
    rfl, rfl, by decide, by decide⟩

/-- C8 (code-bug evidence): the FreeRTOS backend `operator!=` returns
`m_value == other.m_value` — equality — so for the distinct presets
`normal = 24` and `high = 40` it answers false, and for equal values it
answers true; the claim that `a != b` holds exactly when the two priorities
differ fails on that backend (the Azure backend's `operator!=` is correct). -/
theorem freertos_neq_operator_returns_equality :
    freeNeq 24 40 = false ∧ (24 : Int) ≠ 40 ∧ freeNeq 24 24 = true ∧
    azureNeq 24 40 = true := by
  decide

/-- Counterexample to C9 as stated: scheduling a task whose action pointer is
null (and whose binding is null) and then processing it makes `Task::process`
invoke the PLAIN action form through the null function pointer — the
dispatch `if (tcb.binding) tcb.action.binding(tcb.binding); else
tcb.action.plain();` has no null check, so the null-action case is neither
unreachable nor harmless. -/
theorem process_invokes_null_action_pointer :
    (TaskScheduler.schedule freshScheduler ⟨0, 0, ThreadContext.application, 0, 0⟩).map
      (fun p => (TaskScheduler.processImmediate p.2 ThreadContext.application).2)
      = some [Invocation.plain 0] :=
  rfl

/-- C9 (amended): `Task::process` has no null-action guard: whenever the fire
conditions hold and the binding pointer is null, it invokes the plain action
form through whatever pointer is stored — including the null pointer when a
null action was scheduled.  Scheduling a null action is therefore NOT
tolerated as benign by the processing path. -/
theorem process_has_no_null_action_guard (tcb : TaskControlBlock)
    (context : ThreadContext) (imm del : Nat) (h1 : tcb.id ≠ 0)
    (h2 : tcb.delayTicks = 0) (h3 : tcb.context = context) (h4 : tcb.binding = 0) :
    (Task.process tcb context imm del).invoked = some (Invocation.plain tcb.action) := by
  have hc : ¬(tcb.id = 0 ∨ tcb.delayTicks ≠ 0 ∨ tcb.context ≠ context) := by
    push_neg
    exact ⟨h1, h2, h3⟩
  unfold Task.process
  rw [if_neg hc]
  by_cases hr : tcb.resetTicks ≠ 0 <;> simp [hr, h4]

/-- Witness for C9 at the concrete null-action task block
`⟨1, 0, 0, application, 0, 0⟩`. -/
theorem process_has_no_null_action_guard_witness :
    (Task.process ⟨1, 0, 0, ThreadContext.application, 0, 0⟩
        ThreadContext.application 1 0).invoked = some (Invocation.plain 0) :=
  process_has_no_null_action_guard ⟨1, 0, 0, ThreadContext.application, 0, 0⟩
    ThreadContext.application 1 0 (by decide) rfl rfl rfl

/-- C10: on both backends `Semaphore::release` succeeds only while some
thread is inside `Semaphore::wait` (the `m_isTaken` flag is true): a release
issued when no thread is waiting returns false and records nothing — the
state, in particular the kernel count, is unchanged, so the release is lost
rather than latched and a subsequent `wait` on the still-empty semaphore
blocks instead of returning immediately. -/
theorem semaphore_release_requires_active_wait :
    (∀ s : SemStateA, s.isTaken = false → Semaphore.releaseA s = (false, s)) ∧
    (∀ s r : SemStateA, Semaphore.releaseA s = (true, r) → s.isTaken = true) ∧
    (∀ (isr : Bool) (s : SemStateF), s.isTaken = false →
      Semaphore.releaseF isr s = (false, s)) ∧
    (∀ (isr : Bool) (s r : SemStateF), Semaphore.releaseF isr s = (true, r) →
      s.isTaken = true) ∧
    (∀ s : SemStateA, s.isTaken = false → s.count = 0 →
      (Semaphore.waitA false s).1 = WaitOutcome.blocked) ∧
    (∀ s : SemStateF, s.isTaken = false → s.count = 0 →
      (Semaphore.waitF false s).1 = WaitOutcome.blocked) := by
  refine ⟨?_, ?_, ?_, ?_, ?_, ?_⟩
  · intro s h
    unfold Semaphore.releaseA
    simp [h]
  · intro s r h
    by_cases ht : s.isTaken = true
    · exact ht
    · exfalso
      unfold Semaphore.releaseA at h
      rw [if_pos (by simp [Bool.not_eq_true] at ht; simp [ht])] at h
      exact Bool.false_ne_true (congrArg Prod.fst h)
  · intro isr s h
    unfold Semaphore.releaseF
    simp [h]
  · intro isr s r h
    by_cases ht : s.isTaken = true
    · exact ht
    · exfalso
      unfold Semaphore.releaseF at h
      rw [if_pos (by simp [Bool.not_eq_true] at ht; simp [ht])] at h
      exact Bool.false_ne_true (congrArg Prod.fst h)
  · intro s h1 h2
    unfold Semaphore.waitA
    simp [h1, h2]
  · intro s h1 h2
    unfold Semaphore.waitF
    simp [h1, h2]

/-- Witness for C10 at the concrete created-but-idle semaphore states. -/
theorem semaphore_release_requires_active_wait_witness :
    Semaphore.releaseA ⟨true, false, 0⟩ = (false, ⟨true, false, 0⟩) ∧
    Semaphore.releaseF false ⟨true, false, 0⟩ = (false, ⟨true, false, 0⟩) ∧
    (Semaphore.waitA false ⟨true, false, 0⟩).1 = WaitOutcome.blocked :=
  ⟨semaphore_release_requires_active_wait.1 ⟨true, false, 0⟩ rfl,
   semaphore_release_requires_active_wait.2.2.1 false ⟨true, false, 0⟩ rfl,
   semaphore_release_requires_active_wait.2.2.2.2.1 ⟨true, false, 0⟩ rfl rfl⟩

end WTK
